import Mathlib

/-!
Shallow embedding of the JPEG XL WebAssembly bridge
(`src/sliceview/jxl/src/lib.rs` of google/neuroglancer).

The external decoding collaborator (`jxl_oxide`) is modelled abstractly:
a parsed image is a pixel format together with the ordered list of
per-keyframe render results (`none` models a render failure), and frame
sample values are exact rationals standing for the `f32` samples.  The
exported functions take the parse outcome as an explicit parameter
(`none` models `JxlImage::builder().read(data)` returning `Err`), since
the byte-level parser lives entirely in the external library.  Raw
pointers are modelled as natural numbers with `0` as the null pointer;
a returned buffer is `some bytes`, a returned null pointer is `none`.
-/

/-- Frame samples: exact rationals standing for the `f32` values of
`fb.buf()`. -/
abbrev Sample := ℚ

/-- Rust `x.clamp(lo, hi)` on floats, for `lo ≤ hi` and non-NaN input. -/
def rclamp (x lo hi : Sample) : Sample := max lo (min x hi)

/-- Rust `(x * 255.0).clamp(0.0, 255.0) as u8`: the saturating
float-to-int cast truncates toward zero, which on the clamped
nonnegative value is the floor. -/
def toU8 (s : Sample) : Nat := (Int.floor (rclamp (s * 255) 0 255)).toNat

/-- Rust `(x * 65535.0).clamp(0.0, 65535.0).round() as u16`:
`f32::round` rounds half away from zero, which on the clamped
nonnegative value is `⌊x + 1/2⌋`. -/
def toU16 (s : Sample) : Nat := (Int.floor (rclamp (s * 65535) 0 65535 + 1/2)).toNat

/-- `jxl_oxide::PixelFormat`, collapsed to the variants the bridge
distinguishes; `other` stands for every variant hitting the `_` match
arm (`Graya`, `Cmyk`, ...). -/
inductive PixelFormat
  | gray
  | rgb
  | rgba
  | other
deriving DecidableEq

/-- One rendered keyframe: the geometry reported by `frame.stream()` and
the interleaved sample buffer written by `stream.write_to_buffer`. -/
structure Frame where
  width : Nat
  height : Nat
  channels : Nat
  buf : List Sample
deriving DecidableEq

/-- Abstract result of `JxlImage::builder().read(data)`: the image-wide
pixel format and, for each keyframe index `0..num_loaded_keyframes()`,
the outcome of `image.render_frame idx` (`none` = `Err`). -/
structure JxlImage where
  pixelFormat : PixelFormat
  keyframes : List (Option Frame)
deriving DecidableEq

/-- `decode`'s per-pixel loop for `PixelFormat::Rgba`
(`fb.buf().chunks_exact(4)`): push the clamped-truncated R, G, B bytes,
then the constant opaque alpha byte `255`; an incomplete trailing chunk
is dropped by `chunks_exact`. -/
def rgbaPixelsU8 : List Sample → List Nat
  | r :: g :: b :: _a :: rest => toU8 r :: toU8 g :: toU8 b :: 255 :: rgbaPixelsU8 rest
  | _ => []

/-- The body of `decode`'s `match image.pixel_format()` for one frame
buffer: `Gray` and `Rgb` push one byte per sample, `Rgba` goes through
`rgbaPixelsU8`, and any other format returns null. -/
def encodeFrameU8 (pf : PixelFormat) (buf : List Sample) : Option (List Nat) :=
  match pf with
  | .gray => some (buf.map toU8)
  | .rgb => some (buf.map toU8)
  | .rgba => some (rgbaPixelsU8 buf)
  | .other => none

/-- `decode`'s keyframe loop: render each keyframe in order, returning
null on the first render failure or unsupported pixel format, otherwise
appending each frame's encoding to the output buffer. -/
def decodeFrames (pf : PixelFormat) : List (Option Frame) → Option (List Nat)
  | [] => some []
  | none :: _ => none
  | some f :: rest =>
    match encodeFrameU8 pf f.buf, decodeFrames pf rest with
    | some enc, some tail => some (enc ++ tail)
    | _, _ => none

/-- `pub fn decode(ptr, input_size, output_size) -> *const u8`.  The
returned buffer is exposed with `Vec::as_ptr` without any length check
against `output_size`. -/
def decode (ptr inputSize outputSize : Nat) (parsed : Option JxlImage) :
    Option (List Nat) :=
  if ptr = 0 ∨ inputSize = 0 ∨ outputSize = 0 then none
  else
    match parsed with
    | none => none
    | some image => decodeFrames image.pixelFormat image.keyframes

/-- One serialized unit of `decode_with_bpp`'s output buffer: a pushed
`u8` byte, the two little-endian bytes of a `u16`, or the four
little-endian bytes of an `f32` (whose numeric value is all later
reasoning needs). -/
inductive OutItem
  | byte (v : Nat)
  | word (v : Nat)
  | flt (v : Sample)
deriving DecidableEq

/-- Number of bytes the item occupies in the output `Vec<u8>`. -/
def OutItem.byteLen : OutItem → Nat
  | .byte _ => 1
  | .word _ => 2
  | .flt _ => 4

/-- `output_buffer.len()`: total byte length of the serialized items. -/
def byteLength (l : List OutItem) : Nat := (l.map OutItem.byteLen).sum

/-- The inner `match bytes_per_sample` of the `Gray`/`Rgb` arms of
`decode_with_bpp`: scale-clamp-truncate to `u8`, scale-clamp-round to
`u16` little-endian, or pass the sample through as `f32` little-endian;
the `_` arm returns null (unreachable behind the up-front check). -/
def encodeSample (bps : Nat) (s : Sample) : Option (List OutItem) :=
  match bps with
  | 1 => some [.byte (toU8 s)]
  | 2 => some [.word (toU16 s)]
  | 4 => some [.flt s]
  | _ => none

/-- The `Gray`/`Rgb` sample loop of `decode_with_bpp`. -/
def encSamples (bps : Nat) : List Sample → Option (List OutItem)
  | [] => some []
  | s :: rest =>
    match encodeSample bps s, encSamples bps rest with
    | some x, some t => some (x ++ t)
    | _, _ => none

/-- The `Rgba` arm of `decode_with_bpp`: per complete 4-sample chunk,
emit the three encoded color samples followed by a constant full-opacity
alpha (`255` / `0xFFFF` / `1.0`); the source alpha sample is never
read. -/
def encRgba : Nat → List Sample → Option (List OutItem)
  | bps, r :: g :: b :: _a :: rest =>
    match bps with
    | 1 => (encRgba 1 rest).map
        (fun t => .byte (toU8 r) :: .byte (toU8 g) :: .byte (toU8 b) :: .byte 255 :: t)
    | 2 => (encRgba 2 rest).map
        (fun t => .word (toU16 r) :: .word (toU16 g) :: .word (toU16 b) :: .word 65535 :: t)
    | 4 => (encRgba 4 rest).map
        (fun t => .flt r :: .flt g :: .flt b :: .flt 1 :: t)
    | _ => none
  | _, _ => some []

/-- The body of `decode_with_bpp`'s `match image.pixel_format()` for one
frame buffer. -/
def encodeFrameBpp (pf : PixelFormat) (bps : Nat) (buf : List Sample) :
    Option (List OutItem) :=
  match pf with
  | .gray => encSamples bps buf
  | .rgb => encSamples bps buf
  | .rgba => encRgba bps buf
  | .other => none

/-- `decode_with_bpp`'s keyframe loop. -/
def decodeFramesBpp (pf : PixelFormat) (bps : Nat) :
    List (Option Frame) → Option (List OutItem)
  | [] => some []
  | none :: _ => none
  | some f :: rest =>
    match encodeFrameBpp pf bps f.buf, decodeFramesBpp pf bps rest with
    | some enc, some tail => some (enc ++ tail)
    | _, _ => none

/-- `pub fn decode_with_bpp(ptr, input_size, output_size,
bytes_per_sample) -> *const u8`: after the argument and
`bytes_per_sample ∈ {1,2,4}` checks and the keyframe loop, the buffer is
exposed only when `output_buffer.len() == output_size`. -/
def decode_with_bpp (ptr inputSize outputSize bps : Nat)
    (parsed : Option JxlImage) : Option (List OutItem) :=
  if ptr = 0 ∨ inputSize = 0 ∨ outputSize = 0 then none
  else if bps ≠ 1 ∧ bps ≠ 2 ∧ bps ≠ 4 then none
  else
    match parsed with
    | none => none
    | some image =>
      match decodeFramesBpp image.pixelFormat bps image.keyframes with
      | none => none
      | some buf => if byteLength buf ≠ outputSize then none else some buf

/-- Rust `u as i32` wrap-around of an unsigned (or counter) value into a
signed 32-bit integer. -/
def i32wrap (n : Int) : Int := (n + 2 ^ 31) % 2 ^ 32 - 2 ^ 31

/-- `pub fn width(ptr, input_size, output_size) -> i32`: `-1` on invalid
arguments, `-2` on parse failure, then the keyframe loop returns on its
very first iteration — `-3` if keyframe 0 fails to render, else
`stream.width() as i32` — and `-4` only when there are no keyframes. -/
def width (ptr inputSize outputSize : Nat) (parsed : Option JxlImage) : Int :=
  if ptr = 0 ∨ inputSize = 0 ∨ outputSize = 0 then -1
  else
    match parsed with
    | none => -2
    | some image =>
      match image.keyframes with
      | [] => -4
      | none :: _ => -3
      | some f :: _ => i32wrap f.width

/-- `pub fn height(ptr, input_size, output_size) -> i32`, structured
exactly like `width`. -/
def height (ptr inputSize outputSize : Nat) (parsed : Option JxlImage) : Int :=
  if ptr = 0 ∨ inputSize = 0 ∨ outputSize = 0 then -1
  else
    match parsed with
    | none => -2
    | some image =>
      match image.keyframes with
      | [] => -4
      | none :: _ => -3
      | some f :: _ => i32wrap f.height

/-- The counting loop of `frames`: `none` models the `return -3` taken
at the first keyframe that fails to render, `some n` the final value of
`count` (as an unbounded natural, wrapped to `i32` by the caller). -/
def framesLoop : List (Option Frame) → Option Nat
  | [] => some 0
  | none :: _ => none
  | some _ :: rest => (framesLoop rest).map (· + 1)

/-- `pub fn frames(ptr, input_size, output_size) -> i32`: `-1` on
invalid arguments, `-2` on parse failure, `-3` at the first render
failure, `-4` when the final `count` is zero, otherwise `count`. -/
def frames (ptr inputSize outputSize : Nat) (parsed : Option JxlImage) : Int :=
  if ptr = 0 ∨ inputSize = 0 ∨ outputSize = 0 then -1
  else
    match parsed with
    | none => -2
    | some image =>
      match framesLoop image.keyframes with
      | none => -3
      | some n => if i32wrap n = 0 then -4 else i32wrap n

/-- Result of `malloc`: `abort` models a `panic!`/`unwrap` abort of the
whole module, `ok p` a returned pointer `p`. -/
inductive MallocResult
  | abort
  | ok (p : Nat)
deriving DecidableEq

/-- `isize::MAX` of the wasm32 target, the bound above which
`Layout::from_size_align(size, 1)` returns `Err` and its `unwrap`
panics. -/
def isizeMax : Nat := 2 ^ 31 - 1

/-- `pub fn malloc(size) -> *mut u8`, parameterized by the underlying
allocator (`std::alloc::alloc`), which returns `0` for a null pointer:
an invalid `Layout` or a null allocation panics (aborting the module),
otherwise the non-null pointer is returned. -/
def malloc (size : Nat) (allocator : Nat → Nat) : MallocResult :=
  if size > isizeMax then .abort
  else if allocator size = 0 then .abort
  else .ok (allocator size)

/-- Total form of `encodeSample` for a valid `bytes_per_sample`; on an
invalid one it yields `[]` (never reached behind the up-front check). -/
def encItems (bps : Nat) (s : Sample) : List OutItem :=
  match bps with
  | 1 => [.byte (toU8 s)]
  | 2 => [.word (toU16 s)]
  | 4 => [.flt s]
  | _ => []

/-- The constant full-opacity alpha item emitted for each `Rgba` pixel:
`255` as a byte, `0xFFFF` as a `u16`, `1.0` as an `f32`. -/
def alphaItems (bps : Nat) : List OutItem :=
  match bps with
  | 1 => [.byte 255]
  | 2 => [.word 65535]
  | 4 => [.flt 1]
  | _ => []

/-- Total form of `encRgba` for a valid `bytes_per_sample`. -/
def rgbaTotal (bps : Nat) : List Sample → List OutItem
  | r :: g :: b :: _a :: rest =>
    encItems bps r ++ encItems bps g ++ encItems bps b ++ alphaItems bps
      ++ rgbaTotal bps rest
  | _ => []

/-- Two sample buffers of the same shape agreeing on every sample except
possibly the alpha samples (the indices `≡ 3 (mod 4)` of the interleaved
RGBA layout). -/
def SampleAgree (b1 b2 : List Sample) : Prop :=
  b1.length = b2.length ∧ ∀ i, i < b1.length → i % 4 ≠ 3 → b1[i]? = b2[i]?

/-- Pointwise lifting of `SampleAgree` to keyframe render-result lists:
matching render failures, or rendered frames whose buffers agree off the
alpha samples. -/
inductive KeyframesAgree : List (Option Frame) → List (Option Frame) → Prop
  | nil : KeyframesAgree [] []
  | fail (l1 l2 : List (Option Frame)) : KeyframesAgree l1 l2 →
      KeyframesAgree (none :: l1) (none :: l2)
  | frame (f g : Frame) (l1 l2 : List (Option Frame)) :
      SampleAgree f.buf g.buf → KeyframesAgree l1 l2 →
      KeyframesAgree (some f :: l1) (some g :: l2)

/-- A 1×1 RGB image whose single black pixel decodes successfully. -/
def rgbBlack : JxlImage := ⟨.rgb, [some ⟨1, 1, 3, [0, 0, 0]⟩]⟩

/-- A 1×1 RGBA image whose single pixel is black and fully transparent
(source alpha sample `0.0`). -/
def rgbaTransparent : JxlImage := ⟨.rgba, [some ⟨1, 1, 4, [0, 0, 0, 0]⟩]⟩

/-- The same pixel with source alpha `1.0` instead, agreeing with
`rgbaTransparent` on the R, G, B samples. -/
def rgbaOpaque : JxlImage := ⟨.rgba, [some ⟨1, 1, 4, [0, 0, 0, 1]⟩]⟩

/-- A 1×1 grayscale image whose sample `3/1000` scales to `0.765`, where
truncation (`0`) and round-to-nearest (`1`) disagree. -/
def grayDim : JxlImage := ⟨.gray, [some ⟨1, 1, 1, [3/1000]⟩]⟩

/-- A 1×1 grayscale image with the out-of-range sample `1.5`, as a
wide-gamut source could produce. -/
def grayOver : JxlImage := ⟨.gray, [some ⟨1, 1, 1, [3/2]⟩]⟩

/-- A 2×1 grayscale image, decoding to 2 output bytes. -/
def grayTwo : JxlImage := ⟨.gray, [some ⟨2, 1, 1, [0, 0]⟩]⟩

/-- A 1×1 grayscale image with the single sample `0.0`. -/
def grayOne : JxlImage := ⟨.gray, [some ⟨1, 1, 1, [0]⟩]⟩

/-- A parsed image with zero keyframes. -/
def noFramesImg : JxlImage := ⟨.gray, []⟩

/-- An image whose single keyframe fails to render. -/
def renderFailImg : JxlImage := ⟨.gray, [none]⟩

/-- An animated image whose first keyframe renders but whose second
keyframe fails to render. -/
def laterFailImg : JxlImage := ⟨.gray, [some ⟨1, 1, 1, [0]⟩, none]⟩

lemma rclamp_le (x lo hi : Sample) (h : lo ≤ hi) : rclamp x lo hi ≤ hi :=
  max_le h (min_le_right _ _)

lemma toU8_le (s : Sample) : toU8 s ≤ 255 := by
  have h1 : rclamp (s * 255) 0 255 ≤ 255 := rclamp_le _ _ _ (by norm_num)
  have h2 : Int.floor (rclamp (s * 255) 0 255) ≤ 255 := by
    have := Int.floor_le_floor h1
    simpa using this
  unfold toU8
  omega

lemma toU16_le (s : Sample) : toU16 s ≤ 65535 := by
  have h1 : rclamp (s * 65535) 0 65535 ≤ 65535 := rclamp_le _ _ _ (by norm_num)
  have h2 : Int.floor (rclamp (s * 65535) 0 65535 + 1/2) < 65536 := by
    rw [Int.floor_lt]
    push_cast
    linarith
  unfold toU16
  omega

lemma encodeSample_eq (bps : Nat) (h : bps = 1 ∨ bps = 2 ∨ bps = 4)
    (s : Sample) : encodeSample bps s = some (encItems bps s) := by
  rcases h with h | h | h <;> subst h <;> rfl

lemma encSamples_eq (bps : Nat) (h : bps = 1 ∨ bps = 2 ∨ bps = 4)
    (l : List Sample) : encSamples bps l = some (l.flatMap (encItems bps)) := by
  induction l with
  | nil => rfl
  | cons s rest ih => simp [encSamples, encodeSample_eq bps h, ih]

lemma encRgba_eq (bps : Nat) (h : bps = 1 ∨ bps = 2 ∨ bps = 4) :
    ∀ l : List Sample, encRgba bps l = some (rgbaTotal bps l)
  | r :: g :: b :: _a :: rest => by
    have ih := encRgba_eq bps h rest
    rcases h with h | h | h <;> subst h <;>
      simp [encRgba, rgbaTotal, encItems, alphaItems, ih]
  | [] => by rcases h with h | h | h <;> subst h <;> rfl
  | [_] => by rcases h with h | h | h <;> subst h <;> rfl
  | [_, _] => by rcases h with h | h | h <;> subst h <;> rfl
  | [_, _, _] => by rcases h with h | h | h <;> subst h <;> rfl

lemma decodeFrames_of_mem_none (pf : PixelFormat) (kfs : List (Option Frame))
    (h : none ∈ kfs) : decodeFrames pf kfs = none := by
  induction kfs with
  | nil => simp at h
  | cons k rest ih =>
    cases k with
    | none => rfl
    | some f =>
      rcases List.mem_cons.mp h with h' | h'
      · exact absurd h'.symm (by simp)
      · cases henc : encodeFrameU8 pf f.buf <;>
          simp [decodeFrames, henc, ih h']

lemma decodeFrames_map_some (pf : PixelFormat) (enc : Frame → List Nat)
    (fs : List Frame) (h : ∀ f ∈ fs, encodeFrameU8 pf f.buf = some (enc f)) :
    decodeFrames pf (fs.map some) = some (fs.flatMap enc) := by
  induction fs with
  | nil => rfl
  | cons f rest ih =>
    simp only [List.map_cons, decodeFrames, h f (by simp),
      ih (fun g hg => h g (by simp [hg])), List.flatMap_cons]

lemma decodeFramesBpp_of_mem_none (pf : PixelFormat) (bps : Nat)
    (kfs : List (Option Frame)) (h : none ∈ kfs) :
    decodeFramesBpp pf bps kfs = none := by
  induction kfs with
  | nil => simp at h
  | cons k rest ih =>
    cases k with
    | none => rfl
    | some f =>
      rcases List.mem_cons.mp h with h' | h'
      · exact absurd h'.symm (by simp)
      · cases henc : encodeFrameBpp pf bps f.buf <;>
          simp [decodeFramesBpp, henc, ih h']

lemma decodeFramesBpp_map_some (pf : PixelFormat) (bps : Nat)
    (enc : Frame → List OutItem) (fs : List Frame)
    (h : ∀ f ∈ fs, encodeFrameBpp pf bps f.buf = some (enc f)) :
    decodeFramesBpp pf bps (fs.map some) = some (fs.flatMap enc) := by
  induction fs with
  | nil => rfl
  | cons f rest ih =>
    simp only [List.map_cons, decodeFramesBpp, h f (by simp),
      ih (fun g hg => h g (by simp [hg])), List.flatMap_cons]

lemma framesLoop_map_some (fs : List Frame) :
    framesLoop (fs.map some) = some fs.length := by
  induction fs with
  | nil => rfl
  | cons f rest ih => simp [framesLoop, ih]

lemma framesLoop_break (pre : List Frame) (post : List (Option Frame)) :
    framesLoop (pre.map some ++ none :: post) = none := by
  induction pre with
  | nil => rfl
  | cons f rest ih => simp [framesLoop, ih]

lemma rgbaPixelsU8_short (l : List Sample) (h : l.length < 4) :
    rgbaPixelsU8 l = [] := by
  match l, h with
  | [], _ => rfl
  | [_], _ => rfl
  | [_, _], _ => rfl
  | [_, _, _], _ => rfl
  | _ :: _ :: _ :: _ :: _, h => simp only [List.length_cons] at h; omega

lemma rgbaTotal_short (bps : Nat) (l : List Sample) (h : l.length < 4) :
    rgbaTotal bps l = [] := by
  match l, h with
  | [], _ => rfl
  | [_], _ => rfl
  | [_, _], _ => rfl
  | [_, _, _], _ => rfl
  | _ :: _ :: _ :: _ :: _, h => simp only [List.length_cons] at h; omega

lemma sampleAgree_cons4 (r1 g1 c1 a1 r2 g2 c2 a2 : Sample)
    (t1 t2 : List Sample)
    (h : SampleAgree (r1 :: g1 :: c1 :: a1 :: t1) (r2 :: g2 :: c2 :: a2 :: t2)) :
    r1 = r2 ∧ g1 = g2 ∧ c1 = c2 ∧ SampleAgree t1 t2 := by
  obtain ⟨hlen, hag⟩ := h
  simp only [List.length_cons] at hlen
  have h0 := hag 0 (by simp only [List.length_cons]; omega) (by omega)
  have h1 := hag 1 (by simp only [List.length_cons]; omega) (by omega)
  have h2 := hag 2 (by simp only [List.length_cons]; omega) (by omega)
  simp only [List.getElem?_cons_zero, List.getElem?_cons_succ,
    Option.some.injEq] at h0 h1 h2
  refine ⟨h0, h1, h2, by omega, ?_⟩
  intro i hi hmod
  have := hag (i + 4) (by simp only [List.length_cons]; omega) (by omega)
  simpa only [List.getElem?_cons_succ] using this

/-- Structural form of `SampleAgree`, peeling one RGBA chunk at a
time. -/
inductive BufAgree : List Sample → List Sample → Prop
  | short (l1 l2 : List Sample) : l1.length = l2.length → l1.length < 4 →
      BufAgree l1 l2
  | cons (r g b a1 a2 : Sample) (t1 t2 : List Sample) : BufAgree t1 t2 →
      BufAgree (r :: g :: b :: a1 :: t1) (r :: g :: b :: a2 :: t2)

lemma sampleAgree_bufAgree : ∀ b1 b2 : List Sample, SampleAgree b1 b2 →
    BufAgree b1 b2
  | r1 :: g1 :: c1 :: a1 :: t1, r2 :: g2 :: c2 :: a2 :: t2, h => by
    obtain ⟨hr, hg, hc, ht⟩ := sampleAgree_cons4 _ _ _ _ _ _ _ _ _ _ h
    subst hr; subst hg; subst hc
    exact BufAgree.cons _ _ _ _ _ _ _ (sampleAgree_bufAgree t1 t2 ht)
  | [], b2, h => BufAgree.short _ _ h.1 (by simp)
  | [x], b2, h => BufAgree.short _ _ h.1 (by simp)
  | [x, y], b2, h => BufAgree.short _ _ h.1 (by simp)
  | [x, y, z], b2, h => BufAgree.short _ _ h.1 (by simp)
  | _ :: _ :: _ :: _ :: _, [], h => by
    obtain ⟨hlen, -⟩ := h
    simp only [List.length_cons, List.length_nil] at hlen
    omega
  | _ :: _ :: _ :: _ :: _, [_], h => by
    obtain ⟨hlen, -⟩ := h
    simp only [List.length_cons, List.length_nil] at hlen
    omega
  | _ :: _ :: _ :: _ :: _, [_, _], h => by
    obtain ⟨hlen, -⟩ := h
    simp only [List.length_cons, List.length_nil] at hlen
    omega
  | _ :: _ :: _ :: _ :: _, [_, _, _], h => by
    obtain ⟨hlen, -⟩ := h
    simp only [List.length_cons, List.length_nil] at hlen
    omega

lemma rgbaPixelsU8_bufAgree (b1 b2 : List Sample) (h : BufAgree b1 b2) :
    rgbaPixelsU8 b1 = rgbaPixelsU8 b2 := by
  induction h with
  | short l1 l2 hlen hlt =>
    rw [rgbaPixelsU8_short l1 hlt, rgbaPixelsU8_short l2 (by omega)]
  | cons r g b a1 a2 t1 t2 hb ih => simp [rgbaPixelsU8, ih]

lemma rgbaTotal_bufAgree (bps : Nat) (b1 b2 : List Sample)
    (h : BufAgree b1 b2) : rgbaTotal bps b1 = rgbaTotal bps b2 := by
  induction h with
  | short l1 l2 hlen hlt =>
    rw [rgbaTotal_short bps l1 hlt, rgbaTotal_short bps l2 (by omega)]
  | cons r g b a1 a2 t1 t2 hb ih => simp [rgbaTotal, ih]

lemma decodeFrames_keyframesAgree (k1 k2 : List (Option Frame))
    (h : KeyframesAgree k1 k2) :
    decodeFrames .rgba k1 = decodeFrames .rgba k2 := by
  induction h with
  | nil => rfl
  | fail l1 l2 hk ih => rfl
  | frame f g l1 l2 hs hk ih =>
    have hbuf := rgbaPixelsU8_bufAgree _ _ (sampleAgree_bufAgree _ _ hs)
    simp [decodeFrames, encodeFrameU8, hbuf, ih]

lemma decodeFramesBpp_keyframesAgree (bps : Nat)
    (hb : bps = 1 ∨ bps = 2 ∨ bps = 4) (k1 k2 : List (Option Frame))
    (h : KeyframesAgree k1 k2) :
    decodeFramesBpp .rgba bps k1 = decodeFramesBpp .rgba bps k2 := by
  induction h with
  | nil => rfl
  | fail l1 l2 hk ih => rfl
  | frame f g l1 l2 hs hk ih =>
    have hbuf := rgbaTotal_bufAgree bps _ _ (sampleAgree_bufAgree _ _ hs)
    simp [decodeFramesBpp, encodeFrameBpp, encRgba_eq bps hb, hbuf, ih]

lemma i32wrap_eq_self (n : Int) (h0 : 0 ≤ n) (h : n < 2 ^ 31) :
    i32wrap n = n := by
  have h32 : (2 : Int) ^ 32 = 4294967296 := by norm_num
  have h31 : (2 : Int) ^ 31 = 2147483648 := by norm_num
  unfold i32wrap
  rw [h31, h32]
  rw [h31] at h
  omega

lemma i32wrap_natCast (n : Nat) (h : n < 2 ^ 31) : i32wrap (n : Int) = n := by
  apply i32wrap_eq_self
  · positivity
  · exact_mod_cast h

lemma map_flatMap_buf {α : Type} (g : Sample → α) (fs : List Frame) :
    (fs.flatMap Frame.buf).map g = fs.flatMap (fun f => f.buf.map g) := by
  induction fs with
  | nil => rfl
  | cons f rest ih => simp only [List.flatMap_cons, List.map_append, ih]

lemma flatMap_flatMap_buf {α : Type} (g : Sample → List α) (fs : List Frame) :
    (fs.flatMap Frame.buf).flatMap g = fs.flatMap (fun f => f.buf.flatMap g) := by
  induction fs with
  | nil => rfl
  | cons f rest ih => simp only [List.flatMap_cons, List.flatMap_append, ih]

/-- Claim C9: `malloc` never hands the caller a null pointer: for every
size it either returns a non-null pointer, or — when the layout is
invalid or the underlying allocator returns null — it panics, aborting
the whole module, rather than returning a failure value. -/
theorem C9_theorem (size : Nat) (allocator : Nat → Nat) :
    (∀ p, malloc size allocator = .ok p → p ≠ 0) ∧
    (allocator size = 0 → malloc size allocator = .abort) := by
  constructor
  · intro p hp
    unfold malloc at hp
    by_cases h1 : size > isizeMax
    · simp [h1] at hp
    · by_cases h2 : allocator size = 0
      · simp [h1, h2] at hp
      · simp [h1, h2] at hp
        omega
  · intro h
    unfold malloc
    by_cases h1 : size > isizeMax <;> simp [h1, h]

/-- Concrete instantiation of `C9_theorem`: a granted allocation yields
its non-null pointer, a failed one aborts. -/
theorem C9_witness :
    (7 : Nat) ≠ 0 ∧ malloc 5 (fun _ => 0) = .abort :=
  ⟨(C9_theorem 5 (fun _ => 7)).1 7 (by norm_num [malloc, isizeMax]),
   (C9_theorem 5 (fun _ => 0)).2 rfl⟩

/-- Claim C6: `width`, `height` and `frames` return exactly the sentinel
scheme: `-1` when the pointer is null or a size is zero, `-2` when
parsing fails, `-3` when rendering a keyframe fails (for `width`/`height`
this is keyframe 0, the only one the query renders; for `frames` the
first failing keyframe), `-4` when zero frames are produced, and
otherwise a non-negative scalar. -/
theorem C6_theorem (ptr isz osz : Nat) (parsed : Option JxlImage) :
    ((ptr = 0 ∨ isz = 0 ∨ osz = 0) →
      width ptr isz osz parsed = -1 ∧ height ptr isz osz parsed = -1 ∧
      frames ptr isz osz parsed = -1) ∧
    (ptr ≠ 0 → isz ≠ 0 → osz ≠ 0 → parsed = none →
      width ptr isz osz parsed = -2 ∧ height ptr isz osz parsed = -2 ∧
      frames ptr isz osz parsed = -2) ∧
    (∀ img, ptr ≠ 0 → isz ≠ 0 → osz ≠ 0 → parsed = some img →
      img.keyframes = [] →
      width ptr isz osz parsed = -4 ∧ height ptr isz osz parsed = -4 ∧
      frames ptr isz osz parsed = -4) ∧
    (∀ img rest, ptr ≠ 0 → isz ≠ 0 → osz ≠ 0 → parsed = some img →
      img.keyframes = none :: rest →
      width ptr isz osz parsed = -3 ∧ height ptr isz osz parsed = -3 ∧
      frames ptr isz osz parsed = -3) ∧
    (∀ (img : JxlImage) (pre : List Frame) (post : List (Option Frame)),
      ptr ≠ 0 → isz ≠ 0 → osz ≠ 0 → parsed = some img →
      img.keyframes = pre.map some ++ none :: post →
      frames ptr isz osz parsed = -3) ∧
    (∀ img f rest, ptr ≠ 0 → isz ≠ 0 → osz ≠ 0 → parsed = some img →
      img.keyframes = some f :: rest → f.width < 2 ^ 31 → f.height < 2 ^ 31 →
      width ptr isz osz parsed = f.width ∧
      height ptr isz osz parsed = f.height ∧
      0 ≤ width ptr isz osz parsed ∧ 0 ≤ height ptr isz osz parsed) ∧
    (∀ (img : JxlImage) (fs : List Frame),
      ptr ≠ 0 → isz ≠ 0 → osz ≠ 0 → parsed = some img →
      img.keyframes = fs.map some → 0 < fs.length → fs.length < 2 ^ 31 →
      frames ptr isz osz parsed = fs.length ∧
      0 < frames ptr isz osz parsed) := by
  refine ⟨?_, ?_, ?_, ?_, ?_, ?_, ?_⟩
  · intro h
    simp [width, height, frames, h]
  · intro h1 h2 h3 h4
    subst h4
    simp [width, height, frames, h1, h2, h3]
  · intro img h1 h2 h3 h4 h5
    subst h4
    simp [width, height, frames, h1, h2, h3, h5, framesLoop, i32wrap]
  · intro img rest h1 h2 h3 h4 h5
    subst h4
    simp [width, height, frames, h1, h2, h3, h5, framesLoop]
  · intro img pre post h1 h2 h3 h4 h5
    subst h4
    simp [frames, h1, h2, h3, h5, framesLoop_break]
  · intro img f rest h1 h2 h3 h4 h5 hw hh
    subst h4
    have hwi := i32wrap_natCast f.width hw
    have hhi := i32wrap_natCast f.height hh
    simp [width, height, h1, h2, h3, h5, hwi, hhi]
  · intro img fs h1 h2 h3 h4 h5 hpos hlt
    subst h4
    have hni := i32wrap_natCast fs.length hlt
    have hne : (fs.length : Int) ≠ 0 := by exact_mod_cast hpos.ne'
    simp [frames, h1, h2, h3, h5, framesLoop_map_some, hni, hne]
    exact_mod_cast hpos

/-- Concrete instantiations of `C6_theorem`: each sentinel and the
non-negative success cases, at explicit inputs. -/
theorem C6_witness :
    width 0 1 1 none = -1 ∧ width 3 3 3 none = -2 ∧
    height 3 3 3 (some noFramesImg) = -4 ∧
    width 3 3 3 (some renderFailImg) = -3 ∧
    frames 3 3 3 (some laterFailImg) = -3 ∧
    width 3 3 3 (some grayTwo) = 2 ∧
    frames 3 3 3 (some grayTwo) = 1 := by
  refine ⟨((C6_theorem 0 1 1 none).1 (Or.inl rfl)).1,
    ((C6_theorem 3 3 3 none).2.1 (by norm_num) (by norm_num) (by norm_num)
      rfl).1,
    ((C6_theorem 3 3 3 (some noFramesImg)).2.2.1 noFramesImg (by norm_num)
      (by norm_num) (by norm_num) rfl rfl).2.1,
    ((C6_theorem 3 3 3 (some renderFailImg)).2.2.2.1 renderFailImg []
      (by norm_num) (by norm_num) (by norm_num) rfl rfl).1,
    (C6_theorem 3 3 3 (some laterFailImg)).2.2.2.2.1 laterFailImg
      [⟨1, 1, 1, [0]⟩] [] (by norm_num) (by norm_num) (by norm_num) rfl rfl,
    ((C6_theorem 3 3 3 (some grayTwo)).2.2.2.2.2.1 grayTwo ⟨2, 1, 1, [0, 0]⟩
      [] (by norm_num) (by norm_num) (by norm_num) rfl rfl (by norm_num)
      (by norm_num)).1,
    ((C6_theorem 3 3 3 (some grayTwo)).2.2.2.2.2.2 grayTwo
      [⟨2, 1, 1, [0, 0]⟩] (by norm_num) (by norm_num) (by norm_num) rfl rfl
      (by norm_num) (by norm_num)).1⟩

/-- Claim C8: `frames` returns `1` for a valid single-keyframe image
whose frame renders successfully, and returns the negative sentinel `-3`
— never a positive partial count — for a multi-keyframe input in which
some keyframe fails to render. -/
theorem C8_theorem (ptr isz osz : Nat) (img : JxlImage)
    (hp : ptr ≠ 0) (hi : isz ≠ 0) (ho : osz ≠ 0) :
    (∀ f : Frame, img.keyframes = [some f] →
      frames ptr isz osz (some img) = 1) ∧
    (∀ (pre : List Frame) (post : List (Option Frame)),
      img.keyframes = pre.map some ++ none :: post →
      frames ptr isz osz (some img) = -3 ∧
      frames ptr isz osz (some img) < 0) := by
  constructor
  · intro f hk
    simp [frames, hp, hi, ho, hk, framesLoop, i32wrap]
  · intro pre post hk
    simp [frames, hp, hi, ho, hk, framesLoop_break]

/-- Concrete instantiations of `C8_theorem`: a still image counts `1`; a
two-keyframe animation whose second keyframe fails yields `-3 < 0`. -/
theorem C8_witness :
    frames 2 2 2 (some grayOne) = 1 ∧
    frames 2 2 2 (some laterFailImg) = -3 ∧
    frames 2 2 2 (some laterFailImg) < 0 := by
  refine ⟨(C8_theorem 2 2 2 grayOne (by norm_num) (by norm_num)
      (by norm_num)).1 ⟨1, 1, 1, [0]⟩ rfl, ?_, ?_⟩
  · exact ((C8_theorem 2 2 2 laterFailImg (by norm_num) (by norm_num)
      (by norm_num)).2 [⟨1, 1, 1, [0]⟩] [] rfl).1
  · exact ((C8_theorem 2 2 2 laterFailImg (by norm_num) (by norm_num)
      (by norm_num)).2 [⟨1, 1, 1, [0]⟩] [] rfl).2

/-- Claim C7 is false on the code: a null input pointer and a zero-length
input are answered with the invalid-argument sentinel `-1`, not the
parse-failure sentinel `-2` that malformed input receives. -/
theorem C7_counterexample :
    width 0 5 5 none = -1 ∧ width 1 0 5 none = -1 ∧
    frames 0 5 5 none = -1 ∧ (-1 : Int) ≠ -2 := by
  norm_num [width, frames]

/-- Claim C7 amended: zero-length input and a null input pointer are
surfaced through the invalid-argument class (sentinel `-1`), which the
boundary does distinguish from the parse-failure class (sentinel `-2`)
reserved for malformed codestreams with valid arguments. -/
theorem C7_theorem (ptr isz osz : Nat) (parsed : Option JxlImage) :
    ((ptr = 0 ∨ isz = 0 ∨ osz = 0) →
      width ptr isz osz parsed = -1 ∧ height ptr isz osz parsed = -1 ∧
      frames ptr isz osz parsed = -1) ∧
    (ptr ≠ 0 → isz ≠ 0 → osz ≠ 0 → parsed = none →
      width ptr isz osz parsed = -2 ∧ height ptr isz osz parsed = -2 ∧
      frames ptr isz osz parsed = -2) ∧
    ((-1 : Int) ≠ -2) := by
  refine ⟨?_, ?_, by norm_num⟩
  · intro h
    simp [width, height, frames, h]
  · intro h1 h2 h3 h4
    subst h4
    simp [width, height, frames, h1, h2, h3]

/-- Concrete instantiations of `C7_theorem`: the two failure classes at
explicit inputs. -/
theorem C7_witness :
    width 0 7 7 none = -1 ∧ frames 7 7 7 none = -2 := by
  refine ⟨((C7_theorem 0 7 7 none).1 (Or.inl rfl)).1, ?_⟩
  exact ((C7_theorem 7 7 7 none).2.1 (by norm_num) (by norm_num)
    (by norm_num) rfl).2.2

/-- Claim C5 is false for `decode`: the 1×2 grayscale image `grayTwo`
decodes successfully to a 2-byte buffer even though the host declared
`outputSize = 1`; `decode` returns that wrongly-sized buffer instead of
null, having no length check. -/
theorem C5_counterexample :
    decode 1 1 1 (some grayTwo) = some [0, 0] ∧
    ([0, 0] : List Nat).length ≠ 1 := by
  constructor
  · norm_num [decode, grayTwo, decodeFrames, encodeFrameU8, toU8, rclamp]
  · norm_num

/-- Claim C5 amended: both functions return null on a null pointer, a
zero input or output size, a parse failure, any keyframe render failure,
or an unsupported pixel format; `decode_with_bpp` additionally returns
null whenever the serialized length differs from `outputSize` (so a
returned buffer has exactly that byte length), but `decode` performs no
such length check. -/
theorem C5_theorem (ptr isz osz bps : Nat) (parsed : Option JxlImage) :
    ((ptr = 0 ∨ isz = 0 ∨ osz = 0) →
      decode ptr isz osz parsed = none ∧
      decode_with_bpp ptr isz osz bps parsed = none) ∧
    (parsed = none → decode ptr isz osz parsed = none ∧
      decode_with_bpp ptr isz osz bps parsed = none) ∧
    (∀ img : JxlImage, parsed = some img → none ∈ img.keyframes →
      decode ptr isz osz parsed = none ∧
      decode_with_bpp ptr isz osz bps parsed = none) ∧
    (∀ (img : JxlImage) (f : Frame) (rest : List (Option Frame)),
      parsed = some img → img.pixelFormat = .other →
      img.keyframes = some f :: rest →
      decode ptr isz osz parsed = none ∧
      decode_with_bpp ptr isz osz bps parsed = none) ∧
    ((bps ≠ 1 ∧ bps ≠ 2 ∧ bps ≠ 4) →
      decode_with_bpp ptr isz osz bps parsed = none) ∧
    (∀ out, decode_with_bpp ptr isz osz bps parsed = some out →
      byteLength out = osz) := by
  refine ⟨?_, ?_, ?_, ?_, ?_, ?_⟩
  · intro h
    simp [decode, decode_with_bpp, h]
  · intro h
    subst h
    by_cases ha : ptr = 0 ∨ isz = 0 ∨ osz = 0 <;>
      simp [decode, decode_with_bpp, ha]
  · intro img h hmem
    subst h
    by_cases ha : ptr = 0 ∨ isz = 0 ∨ osz = 0
    · simp [decode, decode_with_bpp, ha]
    · constructor
      · simp [decode, ha, decodeFrames_of_mem_none _ _ hmem]
      · by_cases hb : bps ≠ 1 ∧ bps ≠ 2 ∧ bps ≠ 4 <;>
          simp [decode_with_bpp, ha, hb, decodeFramesBpp_of_mem_none _ _ _ hmem]
  · intro img f rest h hpf hk
    subst h
    by_cases ha : ptr = 0 ∨ isz = 0 ∨ osz = 0
    · simp [decode, decode_with_bpp, ha]
    · constructor
      · simp [decode, ha, hpf, hk, decodeFrames, encodeFrameU8]
      · by_cases hb : bps ≠ 1 ∧ bps ≠ 2 ∧ bps ≠ 4 <;>
          simp [decode_with_bpp, ha, hb, hpf, hk, decodeFramesBpp,
            encodeFrameBpp]
  · intro hb
    by_cases ha : ptr = 0 ∨ isz = 0 ∨ osz = 0 <;>
      simp [decode_with_bpp, ha, hb]
  · intro out hout
    unfold decode_with_bpp at hout
    split at hout
    · exact absurd hout (by simp)
    · split at hout
      · exact absurd hout (by simp)
      · split at hout
        · exact absurd hout (by simp)
        · split at hout
          · exact absurd hout (by simp)
          · split at hout
            · exact absurd hout (by simp)
            · rename_i hlen
              simp only [Option.some.injEq] at hout
              subst hout
              omega

/-- Concrete instantiations of `C5_theorem`: null results at explicit
inputs for each failure class, and the exact-length guarantee of a
successful `decode_with_bpp`. -/
theorem C5_witness :
    decode 0 1 1 none = none ∧
    decode 1 1 1 none = none ∧
    decode 1 1 1 (some renderFailImg) = none ∧
    decode_with_bpp 1 1 1 3 (some grayOne) = none ∧
    byteLength [OutItem.byte 0] = 1 := by
  refine ⟨((C5_theorem 0 1 1 1 none).1 (Or.inl rfl)).1,
    ((C5_theorem 1 1 1 1 none).2.1 rfl).1,
    ((C5_theorem 1 1 1 1 (some renderFailImg)).2.2.1 renderFailImg rfl
      (by simp [renderFailImg])).1,
    (C5_theorem 1 1 1 3 (some grayOne)).2.2.2.2.1 (by norm_num), ?_⟩
  exact (C5_theorem 1 1 1 1 (some grayOne)).2.2.2.2.2 [OutItem.byte 0]
    (by norm_num [decode_with_bpp, grayOne, decodeFramesBpp, encodeFrameBpp,
      encSamples, encodeSample, byteLength, OutItem.byteLen, toU8, rclamp])

lemma flatMap_single {α β : Type} (g : α → β) (l : List α) :
    (l.flatMap fun x => [g x]) = l.map g := by
  induction l with
  | nil => rfl
  | cons x xs ih => simp [ih]

/-- Claim C1 is false on the code: the successfully decoded 1×1 RGB
image `rgbBlack` yields 3 output samples per pixel from both `decode`
and `decode_with_bpp` — no 4th (alpha) channel is synthesized — where
the claim requires 4 channels per pixel. -/
theorem C1_counterexample :
    decode 1 1 3 (some rgbBlack) = some [0, 0, 0] ∧
    decode_with_bpp 1 1 3 1 (some rgbBlack) =
      some [OutItem.byte 0, OutItem.byte 0, OutItem.byte 0] ∧
    ([0, 0, 0] : List Nat).length ≠ 4 := by
  refine ⟨?_, ?_, by norm_num⟩
  · norm_num [decode, rgbBlack, decodeFrames, encodeFrameU8, toU8, rclamp]
  · norm_num [decode_with_bpp, rgbBlack, decodeFramesBpp, encodeFrameBpp,
      encSamples, encodeSample, byteLength, OutItem.byteLen, toU8, rclamp]

/-- Claim C1 amended: for RGB sources, `decode` and `decode_with_bpp`
emit exactly one encoded sample per source sample — three channels per
pixel, with no synthesized alpha channel.  (The full-opacity alpha
synthesis instead happens for RGBA sources, replacing the source alpha
— see C2.) -/
theorem C1_theorem (ptr isz osz bps : Nat) (img : JxlImage) (fs : List Frame)
    (hp : ptr ≠ 0) (hi : isz ≠ 0) (ho : osz ≠ 0)
    (hf : img.pixelFormat = PixelFormat.rgb)
    (hk : img.keyframes = fs.map some) :
    decode ptr isz osz (some img) = some ((fs.flatMap Frame.buf).map toU8) ∧
    (∀ out, decode_with_bpp ptr isz osz bps (some img) = some out →
      out = (fs.flatMap Frame.buf).flatMap (encItems bps)) := by
  have ha : ¬(ptr = 0 ∨ isz = 0 ∨ osz = 0) := by tauto
  constructor
  · have hdf := decodeFrames_map_some .rgb (fun f => f.buf.map toU8) fs
      (fun f _ => rfl)
    simp [decode, ha, hf, hk, hdf, map_flatMap_buf]
  · intro out hout
    by_cases hb : bps ≠ 1 ∧ bps ≠ 2 ∧ bps ≠ 4
    · simp [decode_with_bpp, ha, hb] at hout
    · have hbv : bps = 1 ∨ bps = 2 ∨ bps = 4 := by tauto
      have hdf := decodeFramesBpp_map_some .rgb bps
        (fun f => f.buf.flatMap (encItems bps)) fs
        (fun f _ => by simp [encodeFrameBpp, encSamples_eq bps hbv])
      unfold decode_with_bpp at hout
      rw [if_neg ha, if_neg hb] at hout
      simp only [hf, hk, hdf] at hout
      split at hout
      · exact absurd hout (by simp)
      · simp only [Option.some.injEq] at hout
        subst hout
        rw [flatMap_flatMap_buf]

/-- Concrete instantiation of `C1_theorem` on the 1×1 RGB image: one
frame of 3 samples yields exactly 3 encoded samples from each decoder. -/
theorem C1_witness :
    decode 4 4 3 (some rgbBlack) =
      some (((([⟨1, 1, 3, [0, 0, 0]⟩] : List Frame).flatMap
        Frame.buf).map toU8)) ∧
    [OutItem.byte 0, OutItem.byte 0, OutItem.byte 0] =
      (([⟨1, 1, 3, [0, 0, 0]⟩] : List Frame).flatMap Frame.buf).flatMap
        (encItems 1) := by
  have h := C1_theorem 4 4 3 1 rgbBlack [⟨1, 1, 3, [0, 0, 0]⟩]
    (by norm_num) (by norm_num) (by norm_num) rfl rfl
  exact ⟨h.1, h.2 [OutItem.byte 0, OutItem.byte 0, OutItem.byte 0]
    (by norm_num [decode_with_bpp, rgbBlack, decodeFramesBpp, encodeFrameBpp,
      encSamples, encodeSample, byteLength, OutItem.byteLen, toU8, rclamp])⟩

/-- Claim C2 is false on the code: the 1×1 RGBA image
`rgbaTransparent`, whose source alpha sample is `0.0`, decodes to an
output whose alpha byte is `255`; the source alpha (which the claimed
pass-through would encode as `toU8 0 = 0`) is discarded. -/
theorem C2_counterexample :
    decode 1 1 4 (some rgbaTransparent) = some [0, 0, 0, 255] ∧
    toU8 0 = 0 ∧ (255 : Nat) ≠ 0 := by
  refine ⟨?_, ?_, by norm_num⟩
  · norm_num [decode, rgbaTransparent, decodeFrames, encodeFrameU8,
      rgbaPixelsU8, toU8, rclamp]
  · norm_num [toU8, rclamp]

/-- Claim C2 amended: for RGBA sources the source alpha channel is
discarded: per pixel, both decoders emit the three encoded color
samples followed by a constant full-opacity alpha (`255` / `65535` /
`1.0`) that does not depend on the source alpha sample. -/
theorem C2_theorem (ptr isz osz bps : Nat) (img : JxlImage) (fs : List Frame)
    (hp : ptr ≠ 0) (hi : isz ≠ 0) (ho : osz ≠ 0)
    (hf : img.pixelFormat = PixelFormat.rgba)
    (hk : img.keyframes = fs.map some) :
    decode ptr isz osz (some img) =
      some (fs.flatMap (fun f => rgbaPixelsU8 f.buf)) ∧
    (∀ out, decode_with_bpp ptr isz osz bps (some img) = some out →
      out = fs.flatMap (fun f => rgbaTotal bps f.buf)) ∧
    (∀ (r g b a : Sample) (t : List Sample),
      rgbaPixelsU8 (r :: g :: b :: a :: t) =
        toU8 r :: toU8 g :: toU8 b :: 255 :: rgbaPixelsU8 t) ∧
    (∀ (r g b a : Sample) (t : List Sample),
      rgbaTotal bps (r :: g :: b :: a :: t) =
        encItems bps r ++ encItems bps g ++ encItems bps b ++ alphaItems bps
          ++ rgbaTotal bps t) := by
  have ha : ¬(ptr = 0 ∨ isz = 0 ∨ osz = 0) := by tauto
  refine ⟨?_, ?_, fun r g b a t => rfl, fun r g b a t => rfl⟩
  · have hdf := decodeFrames_map_some .rgba (fun f => rgbaPixelsU8 f.buf) fs
      (fun f _ => rfl)
    simp [decode, ha, hf, hk, hdf]
  · intro out hout
    by_cases hb : bps ≠ 1 ∧ bps ≠ 2 ∧ bps ≠ 4
    · simp [decode_with_bpp, ha, hb] at hout
    · have hbv : bps = 1 ∨ bps = 2 ∨ bps = 4 := by tauto
      have hdf := decodeFramesBpp_map_some .rgba bps
        (fun f => rgbaTotal bps f.buf) fs
        (fun f _ => by simp [encodeFrameBpp, encRgba_eq bps hbv])
      unfold decode_with_bpp at hout
      rw [if_neg ha, if_neg hb] at hout
      simp only [hf, hk, hdf] at hout
      split at hout
      · exact absurd hout (by simp)
      · simp only [Option.some.injEq] at hout
        exact hout.symm

/-- Concrete instantiation of `C2_theorem` on `rgbaTransparent`: the
emitted alpha byte is the constant `255`, not an encoding of the source
alpha `0.0`. -/
theorem C2_witness :
    decode 4 4 4 (some rgbaTransparent) =
      some (([⟨1, 1, 4, [0, 0, 0, 0]⟩] : List Frame).flatMap
        (fun f => rgbaPixelsU8 f.buf)) ∧
    [OutItem.byte 0, OutItem.byte 0, OutItem.byte 0, OutItem.byte 255] =
      ([⟨1, 1, 4, [0, 0, 0, 0]⟩] : List Frame).flatMap
        (fun f => rgbaTotal 1 f.buf) := by
  have h := C2_theorem 4 4 4 1 rgbaTransparent [⟨1, 1, 4, [0, 0, 0, 0]⟩]
    (by norm_num) (by norm_num) (by norm_num) rfl rfl
  exact ⟨h.1, (h.2.1 [OutItem.byte 0, OutItem.byte 0, OutItem.byte 0,
      OutItem.byte 255]
    (by norm_num [decode_with_bpp, rgbaTransparent, decodeFramesBpp,
      encodeFrameBpp, encRgba, byteLength, OutItem.byteLen, toU8, rclamp]))⟩

/-- Claim C3 is false on the code: the grayscale sample `3/1000` scales
to `0.765`, whose nearest integer is `1`, yet `decode` emits the byte
`0` — the 1-byte path truncates toward zero instead of rounding. -/
theorem C3_counterexample :
    decode 1 1 1 (some grayDim) = some [0] ∧
    decode_with_bpp 1 1 1 1 (some grayDim) = some [OutItem.byte 0] ∧
    Int.floor ((3/1000 : ℚ) * 255 + 1/2) = 1 ∧ (0 : Nat) ≠ 1 := by
  refine ⟨?_, ?_, by norm_num, by norm_num⟩
  · norm_num [decode, grayDim, decodeFrames, encodeFrameU8, toU8, rclamp]
  · norm_num [decode_with_bpp, grayDim, decodeFramesBpp, encodeFrameBpp,
      encSamples, encodeSample, byteLength, OutItem.byteLen, toU8, rclamp]

/-- Claim C3 amended: every 1-byte sample emitted by `decode` or
`decode_with_bpp` equals the sample scaled by 255, clamped, and then
truncated toward zero (the floor of the clamped nonnegative value) —
not rounded to nearest; only the 2-byte path rounds to nearest. -/
theorem C3_theorem (ptr isz osz : Nat) (img : JxlImage) (fs : List Frame)
    (hp : ptr ≠ 0) (hi : isz ≠ 0) (ho : osz ≠ 0)
    (hf : img.pixelFormat = PixelFormat.gray)
    (hk : img.keyframes = fs.map some) :
    decode ptr isz osz (some img) =
      some ((fs.flatMap Frame.buf).map
        (fun s => (Int.floor (rclamp (s * 255) 0 255)).toNat)) ∧
    (∀ out, decode_with_bpp ptr isz osz 1 (some img) = some out →
      out = (fs.flatMap Frame.buf).map
        (fun s => OutItem.byte ((Int.floor (rclamp (s * 255) 0 255)).toNat))) ∧
    (∀ s : Sample, toU16 s = (Int.floor (rclamp (s * 65535) 0 65535 + 1/2)).toNat) := by
  have ha : ¬(ptr = 0 ∨ isz = 0 ∨ osz = 0) := by tauto
  refine ⟨?_, ?_, fun s => rfl⟩
  · have hdf := decodeFrames_map_some .gray (fun f => f.buf.map toU8) fs
      (fun f _ => rfl)
    simp [decode, ha, hf, hk, hdf, map_flatMap_buf]
    rfl
  · intro out hout
    have hbv : (1 : Nat) = 1 ∨ (1 : Nat) = 2 ∨ (1 : Nat) = 4 := Or.inl rfl
    have hdf := decodeFramesBpp_map_some .gray 1
      (fun f => f.buf.flatMap (encItems 1)) fs
      (fun f _ => by simp [encodeFrameBpp, encSamples_eq 1 hbv])
    unfold decode_with_bpp at hout
    rw [if_neg ha, if_neg (by norm_num)] at hout
    simp only [hf, hk, hdf] at hout
    split at hout
    · exact absurd hout (by simp)
    · simp only [Option.some.injEq] at hout
      subst hout
      have henc : encItems 1 = fun s => [OutItem.byte (toU8 s)] := by
        funext s; rfl
      rw [← flatMap_flatMap_buf, henc,
        flatMap_single (fun s => OutItem.byte (toU8 s))]
      rfl

/-- Concrete instantiation of `C3_theorem` on `grayDim`: the emitted
byte is the floor `0` of the clamped scaled sample `0.765`. -/
theorem C3_witness :
    decode 9 9 1 (some grayDim) =
      some ((([⟨1, 1, 1, [3/1000]⟩] : List Frame).flatMap Frame.buf).map
        (fun s => (Int.floor (rclamp (s * 255) 0 255)).toNat)) ∧
    [OutItem.byte 0] =
      (([⟨1, 1, 1, [3/1000]⟩] : List Frame).flatMap Frame.buf).map
        (fun s => OutItem.byte ((Int.floor (rclamp (s * 255) 0 255)).toNat)) := by
  have h := C3_theorem 9 9 1 grayDim [⟨1, 1, 1, [3/1000]⟩]
    (by norm_num) (by norm_num) (by norm_num) rfl rfl
  exact ⟨h.1, h.2.1 [OutItem.byte 0]
    (by norm_num [decode_with_bpp, grayDim, decodeFramesBpp, encodeFrameBpp,
      encSamples, encodeSample, byteLength, OutItem.byteLen, toU8, rclamp])⟩

/-- Claim C4 is false on the code: the out-of-range grayscale sample
`1.5` passes through the 4-byte float path of `decode_with_bpp`
unclamped, so the emitted 32-bit sample `1.5` lies outside `[0, 1]`. -/
theorem C4_counterexample :
    decode_with_bpp 1 1 4 4 (some grayOver) = some [OutItem.flt (3/2)] ∧
    ¬((3/2 : ℚ) ≤ 1) := by
  refine ⟨?_, by norm_num⟩
  norm_num [decode_with_bpp, grayOver, decodeFramesBpp, encodeFrameBpp,
    encSamples, encodeSample, byteLength, OutItem.byteLen]

/-- Claim C4 amended: the 1- and 2-byte encodings clamp the scaled
sample into `[0, 255]` / `[0, 65535]`, but the 4-byte float encoding
passes each sample through without clamping; consequently the emitted
float samples lie within `[0, 1]` exactly when the decoded source
samples already do. -/
theorem C4_theorem (ptr isz osz : Nat) (img : JxlImage) (fs : List Frame)
    (hp : ptr ≠ 0) (hi : isz ≠ 0) (ho : osz ≠ 0)
    (hf : img.pixelFormat = PixelFormat.gray)
    (hk : img.keyframes = fs.map some) :
    (∀ s : Sample, toU8 s ≤ 255) ∧
    (∀ s : Sample, toU16 s ≤ 65535) ∧
    (∀ out, decode_with_bpp ptr isz osz 4 (some img) = some out →
      out = (fs.flatMap Frame.buf).map OutItem.flt) ∧
    (∀ out, decode_with_bpp ptr isz osz 4 (some img) = some out →
      (∀ s ∈ fs.flatMap Frame.buf, 0 ≤ s ∧ s ≤ 1) →
      ∀ v : Sample, OutItem.flt v ∈ out → 0 ≤ v ∧ v ≤ 1) := by
  have ha : ¬(ptr = 0 ∨ isz = 0 ∨ osz = 0) := by tauto
  have hchar : ∀ out, decode_with_bpp ptr isz osz 4 (some img) = some out →
      out = (fs.flatMap Frame.buf).map OutItem.flt := by
    intro out hout
    have hbv : (4 : Nat) = 1 ∨ (4 : Nat) = 2 ∨ (4 : Nat) = 4 :=
      Or.inr (Or.inr rfl)
    have hdf := decodeFramesBpp_map_some .gray 4
      (fun f => f.buf.flatMap (encItems 4)) fs
      (fun f _ => by simp [encodeFrameBpp, encSamples_eq 4 hbv])
    unfold decode_with_bpp at hout
    rw [if_neg ha, if_neg (by norm_num)] at hout
    simp only [hf, hk, hdf] at hout
    split at hout
    · exact absurd hout (by simp)
    · simp only [Option.some.injEq] at hout
      subst hout
      have henc : encItems 4 = fun s => [OutItem.flt s] := by
        funext s; rfl
      rw [← flatMap_flatMap_buf, henc, flatMap_single OutItem.flt]
  refine ⟨toU8_le, toU16_le, hchar, ?_⟩
  intro out hout hin v hv
  rw [hchar out hout] at hv
  obtain ⟨s, hs, hsv⟩ := List.mem_map.mp hv
  obtain rfl : s = v := by simpa using hsv
  exact hin s hs

/-- Concrete instantiation of `C4_theorem` on `grayOne` (sample `0.0`,
within range): the float output passes the sample through and stays in
`[0, 1]`. -/
theorem C4_witness :
    toU8 (3/2) ≤ 255 ∧ toU16 (3/2) ≤ 65535 ∧
    [OutItem.flt 0] =
      (([⟨1, 1, 1, [0]⟩] : List Frame).flatMap Frame.buf).map OutItem.flt ∧
    (0 : ℚ) ≤ 0 ∧ (0 : ℚ) ≤ 1 := by
  have h := C4_theorem 6 6 4 grayOne [⟨1, 1, 1, [0]⟩]
    (by norm_num) (by norm_num) (by norm_num) rfl rfl
  have hd : decode_with_bpp 6 6 4 4 (some grayOne) = some [OutItem.flt 0] := by
    norm_num [decode_with_bpp, grayOne, decodeFramesBpp, encodeFrameBpp,
      encSamples, encodeSample, byteLength, OutItem.byteLen]
  have hr := h.2.2.2 [OutItem.flt 0] hd (by norm_num) 0
    (by norm_num)
  exact ⟨h.1 (3/2), h.2.1 (3/2), h.2.2.1 [OutItem.flt 0] hd, hr.1, hr.2⟩

/-- Claim C10: for RGBA-format images the output of both decoders is
independent of the source alpha samples: two parsed images agreeing
frame-by-frame on all R, G, B samples (and on which keyframes fail) but
differing arbitrarily in their alpha samples produce identical
results. -/
theorem C10_theorem (ptr isz osz bps : Nat) (img1 img2 : JxlImage)
    (h1 : img1.pixelFormat = PixelFormat.rgba)
    (h2 : img2.pixelFormat = PixelFormat.rgba)
    (hk : KeyframesAgree img1.keyframes img2.keyframes) :
    decode ptr isz osz (some img1) = decode ptr isz osz (some img2) ∧
    decode_with_bpp ptr isz osz bps (some img1) =
      decode_with_bpp ptr isz osz bps (some img2) := by
  by_cases ha : ptr = 0 ∨ isz = 0 ∨ osz = 0
  · simp [decode, decode_with_bpp, ha]
  · constructor
    · simp only [decode, if_neg ha, h1, h2]
      exact decodeFrames_keyframesAgree _ _ hk
    · by_cases hb : bps ≠ 1 ∧ bps ≠ 2 ∧ bps ≠ 4
      · simp [decode_with_bpp, ha, hb]
      · have hbv : bps = 1 ∨ bps = 2 ∨ bps = 4 := by tauto
        simp only [decode_with_bpp, if_neg ha, if_neg hb, h1, h2]
        rw [decodeFramesBpp_keyframesAgree bps hbv _ _ hk]

/-- Concrete instantiation of `C10_theorem`: `rgbaTransparent` and
`rgbaOpaque` differ only in their alpha sample and decode
identically. -/
theorem C10_witness :
    decode 5 5 4 (some rgbaTransparent) = decode 5 5 4 (some rgbaOpaque) ∧
    decode_with_bpp 5 5 4 1 (some rgbaTransparent) =
      decode_with_bpp 5 5 4 1 (some rgbaOpaque) := by
  refine C10_theorem 5 5 4 1 rgbaTransparent rgbaOpaque rfl rfl ?_
  refine KeyframesAgree.frame _ _ _ _ ⟨rfl, ?_⟩ KeyframesAgree.nil
  intro i hi hm
  have hi4 : i < 4 := by simpa using hi
  interval_cases i
  · rfl
  · rfl
  · rfl
  · exact absurd rfl hm
